import Mathlib

/-!
# SimpleDB: a shallow embedding of the persistence engine

This file embeds the core of the SimpleDB embedded document store
(`src/storage.rs`, `src/crypto.rs`, `src/database.rs`, `src/error.rs`)
in Lean 4 and proves the specified properties of its operations.

Modelling conventions:
* Rust `HashMap` values are modelled as association lists with the same
  lookup / replace / remove semantics (`mapGet`, `mapInsert`, `mapRemove`);
  a `HashMap` never holds two entries for one key, which appears here as a
  `Nodup` hypothesis on the key list where a proof needs it.
* Byte buffers (`Vec<u8>`, `&[u8]`) are `List Nat`.
* Sources of nondeterminism (the UUID for a fresh record id, the system
  clock, the random AEAD nonce) are passed in as explicit arguments.
* The file system is an association list from table name to file bytes;
  `save`/`load` thread it explicitly.
* Fallible Rust functions returning `Result<T, DatabaseError>` become
  `Except DbError T`.
-/

/-- The typed value model of `storage.rs` (`enum Value`).  The `Float`
payload is carried as its raw 64-bit pattern: no floating-point arithmetic
is ever performed on it by the engine, values are only stored and compared
structurally. -/
inductive Value where
  | null : Value
  | bool (b : Bool) : Value
  | int (i : Int) : Value
  | float (bits : Nat) : Value
  | string (s : String) : Value
  | bytes (bs : List Nat) : Value
  | array (xs : List Value) : Value
  | object (fields : List (String × Value)) : Value

/-- Source `Value::as_string` of `storage.rs`: the `String` payload, or absence. -/
def Value.as_string : Value → Option String
  | .string s => some s
  | _ => none

/-- Source `Value::as_int` of `storage.rs`: the `Int` payload, or absence. -/
def Value.as_int : Value → Option Int
  | .int i => some i
  | _ => none

/-- A record's data mapping (`HashMap<String, Value>`), as an association
list. -/
abbrev Data := List (String × Value)

/-- The error taxonomy of `error.rs` (`enum DatabaseError`). -/
inductive DbError where
  | ioError (msg : String) : DbError
  | serializationError (msg : String) : DbError
  | encryption (msg : String) : DbError
  | tableNotFound (name : String) : DbError
  | recordNotFound (id : String) : DbError
  | duplicateKey (id : String) : DbError
  | configError (msg : String) : DbError
  | dataFormat (msg : String) : DbError

/-- Source `struct Record` of `storage.rs`. -/
structure Record where
  id : String
  data : Data
  created_at : Nat
  updated_at : Nat

/-- Source `Record::new` of `storage.rs`.  The fresh UUID `id` and the current
clock reading `now` are environment inputs, passed explicitly; both
timestamps are set to `now`. -/
def Record.new (id : String) (now : Nat) (data : Data) : Record :=
  { id := id, data := data, created_at := now, updated_at := now }

/-- Source `Record::update` of `storage.rs`: replaces the whole data mapping and
resets `updated_at` to the current clock reading; `id` and `created_at`
are untouched. -/
def Record.update (r : Record) (now : Nat) (data : Data) : Record :=
  { r with data := data, updated_at := now }

/-! ## Association-list model of `HashMap` -/

/-- Model of `HashMap::get`: the value stored under `k`, or absence. -/
def mapGet {α : Type} (m : List (String × α)) (k : String) : Option α :=
  match m with
  | [] => none
  | (k', v) :: rest => if k' = k then some v else mapGet rest k

/-- Model of `HashMap::insert`: replaces the entry for `k` if present, otherwise
adds one. -/
def mapInsert {α : Type} (m : List (String × α)) (k : String) (v : α) :
    List (String × α) :=
  match m with
  | [] => [(k, v)]
  | (k', v') :: rest =>
      if k' = k then (k, v) :: rest else (k', v') :: mapInsert rest k v

/-- Model of `HashMap::remove`: drops the entry for `k` if present. -/
def mapRemove {α : Type} (m : List (String × α)) (k : String) :
    List (String × α) :=
  match m with
  | [] => []
  | (k', v') :: rest =>
      if k' = k then rest else (k', v') :: mapRemove rest k

/-! ## Crypto (`crypto.rs`)

The repository wraps the external `aes_gcm` crate (AES-256-GCM).  The
cipher itself is not part of this repository, so the AEAD core is
modelled from the spec: an ideal authenticated cipher whose
authentication tag binds the key, the nonce and the message, so that
decryption succeeds exactly when performed with the key and framing the
buffer was produced with.  The framing around the cipher — the 32-byte
key-length check of `Crypto::new`, the `nonce ++ ciphertext` layout of
`Crypto::encrypt`, and the minimum-length check and `split_at(12)` of
`Crypto::decrypt` — is translated directly from `crypto.rs`. -/

/-- An injective encoding of a byte list into one natural number, used to
build the ideal AEAD tag. -/
def encodeListNat : List Nat → Nat
  | [] => 0
  | x :: xs => Nat.pair x (encodeListNat xs) + 1

/-- Modelled from the spec: the ideal AEAD authentication tag, binding
key, nonce and plaintext (`aes_gcm` is external to the repository). -/
def tagOf (key nonce data : List Nat) : Nat :=
  Nat.pair (encodeListNat key) (encodeListNat (nonce ++ data))

/-- Source `struct Crypto` of `crypto.rs`: the cipher is determined by its
256-bit key. -/
structure Crypto where
  key : List Nat

/-- Source `Crypto::new` of `crypto.rs`: rejects any key that is not exactly 32
bytes with an `Encryption` error. -/
def Crypto.new (key : List Nat) : Except DbError Crypto :=
  if key.length ≠ 32 then .error (.encryption "key must be 32 bytes")
  else .ok { key := key }

/-- Source `Crypto::encrypt` of `crypto.rs`: the freshly generated random nonce
is an explicit 12-byte argument; the result is the nonce followed by the
authenticated ciphertext.  The AEAD core is the ideal cipher above
(plaintext followed by its tag); the `Result` wrapper of the source is
dropped because AES-GCM encryption of a byte slice cannot fail. -/
def Crypto.encrypt (c : Crypto) (nonce : List Nat) (data : List Nat) :
    List Nat :=
  nonce ++ (data ++ [tagOf c.key nonce data])

/-- Source `Crypto::decrypt` of `crypto.rs`: rejects buffers shorter than the
12-byte nonce, splits the leading 12 bytes off as the nonce, then opens
the authenticated ciphertext, failing with an `Encryption` error when
authentication fails. -/
def Crypto.decrypt (c : Crypto) (encrypted_data : List Nat) :
    Except DbError (List Nat) :=
  if encrypted_data.length < 12 then
    .error (.encryption "encrypted data too short, need at least 12 bytes")
  else
    let nonce := encrypted_data.take 12
    let ct := encrypted_data.drop 12
    match ct.getLast? with
    | none => .error (.encryption "decrypt failed")
    | some tag =>
        if tagOf c.key nonce ct.dropLast = tag then .ok ct.dropLast
        else .error (.encryption "decrypt failed")

/-! ## Serialization

Modelled from the spec: `bincode` (an external crate) serializes the
whole `id → Record` mapping to a binary form.  It is modelled as a
self-delimiting length-prefixed encoding with a matching fuel-bounded
decoder; like `bincode`, the encoding of an empty mapping is a non-empty
buffer (its length prefix), so an empty file is never a serializer
output. -/

/-- Length-prefixed string encoding. -/
def encodeString (s : String) : List Nat :=
  s.length :: s.toList.map Char.toNat

/-- Modelled from the spec: binary encoding of one `Value` (the `bincode`
crate is external to the repository). -/
def encodeValue : Value → List Nat
  | .null => [0]
  | .bool b => [1, cond b 1 0]
  | .int i => [2, if i < 0 then 1 else 0, i.natAbs]
  | .float bits => [3, bits]
  | .string s => 4 :: encodeString s
  | .bytes bs => 5 :: bs.length :: bs
  | .array xs => 6 :: xs.length ::
      (xs.attach.map (fun x => encodeValue x.1)).flatten
  | .object fs => 7 :: fs.length ::
      (fs.attach.map (fun p => encodeString p.1.1 ++ encodeValue p.1.2)).flatten
termination_by v => sizeOf v
decreasing_by
  · have := List.sizeOf_lt_of_mem x.2
    simp only [Value.array.sizeOf_spec]
    omega
  · have h1 := List.sizeOf_lt_of_mem p.2
    have h2 : sizeOf p.1.2 < sizeOf p.1 := by
      cases p.1 with
      | mk a b => simp
    simp only [Value.object.sizeOf_spec]
    omega

/-- Binary encoding of a data mapping (field count, then each field name
and value). -/
def encodeData (d : Data) : List Nat :=
  d.length :: (d.map (fun p => encodeString p.1 ++ encodeValue p.2)).flatten

/-- Binary encoding of one `Record`. -/
def encodeRecord (r : Record) : List Nat :=
  encodeString r.id ++ r.created_at :: r.updated_at :: encodeData r.data

/-- Modelled from the spec: `bincode::serialize` of the `id → Record`
mapping. -/
def bincodeSer (m : List (String × Record)) : List Nat :=
  m.length :: (m.map (fun p => encodeString p.1 ++ encodeRecord p.2)).flatten

/-- Decode a length-prefixed string. -/
def decodeString : List Nat → Option (String × List Nat)
  | [] => none
  | n :: rest =>
      if n ≤ rest.length then
        some (String.mk ((rest.take n).map Char.ofNat), rest.drop n)
      else none

mutual

/-- Fuel-bounded decoder for one `Value`. -/
def decodeValue : Nat → List Nat → Option (Value × List Nat)
  | 0, _ => none
  | fuel + 1, input =>
    match input with
    | 0 :: rest => some (.null, rest)
    | 1 :: b :: rest => some (.bool (b == 1), rest)
    | 2 :: s :: m :: rest =>
        some (.int (if s == 1 then -(m : Int) else (m : Int)), rest)
    | 3 :: bits :: rest => some (.float bits, rest)
    | 4 :: rest => (decodeString rest).map (fun p => (.string p.1, p.2))
    | 5 :: n :: rest =>
        if n ≤ rest.length then some (.bytes (rest.take n), rest.drop n)
        else none
    | 6 :: n :: rest => (decodeValues fuel n rest).map (fun p => (.array p.1, p.2))
    | 7 :: n :: rest => (decodeFields fuel n rest).map (fun p => (.object p.1, p.2))
    | _ => none

/-- Fuel-bounded decoder for `n` consecutive values. -/
def decodeValues : Nat → Nat → List Nat → Option (List Value × List Nat)
  | _, 0, input => some ([], input)
  | 0, _ + 1, _ => none
  | fuel + 1, n + 1, input =>
      match decodeValue fuel input with
      | none => none
      | some (v, rest) =>
          match decodeValues fuel n rest with
          | none => none
          | some (vs, rest') => some (v :: vs, rest')

/-- Fuel-bounded decoder for `n` consecutive named fields. -/
def decodeFields : Nat → Nat → List Nat →
    Option (List (String × Value) × List Nat)
  | _, 0, input => some ([], input)
  | 0, _ + 1, _ => none
  | fuel + 1, n + 1, input =>
      match decodeString input with
      | none => none
      | some (k, rest) =>
          match decodeValue fuel rest with
          | none => none
          | some (v, rest') =>
              match decodeFields fuel n rest' with
              | none => none
              | some (fs, rest'') => some ((k, v) :: fs, rest'')

end

/-- Fuel-bounded decoder for a data mapping. -/
def decodeData (fuel : Nat) : List Nat → Option (Data × List Nat)
  | [] => none
  | n :: rest => decodeFields fuel n rest

/-- Fuel-bounded decoder for one `Record`. -/
def decodeRecord (fuel : Nat) (input : List Nat) :
    Option (Record × List Nat) :=
  match decodeString input with
  | none => none
  | some (id, rest) =>
      match rest with
      | c :: u :: rest2 =>
          match decodeData fuel rest2 with
          | none => none
          | some (d, rest3) =>
              some ({ id := id, data := d, created_at := c, updated_at := u },
                rest3)
      | _ => none

/-- Fuel-bounded decoder for `n` consecutive mapping entries. -/
def decodeEntries : Nat → Nat → List Nat →
    Option (List (String × Record) × List Nat)
  | _, 0, input => some ([], input)
  | 0, _ + 1, _ => none
  | fuel + 1, n + 1, input =>
      match decodeRecord fuel input with
      | none => none
      | some (e, rest) =>
          match decodeEntries fuel n rest with
          | none => none
          | some (m, rest') => some ((e.id, e) :: m, rest')

/-- Modelled from the spec: `bincode::deserialize` of the `id → Record`
mapping; any malformed buffer yields a `Serialization` error. -/
def bincodeDeser (bs : List Nat) : Except DbError (List (String × Record)) :=
  match bs with
  | [] => .error (.serializationError "empty buffer")
  | n :: rest =>
      match decodeEntries bs.length n rest with
      | some (m, []) => .ok m
      | _ => .error (.serializationError "malformed buffer")

/-! ## Table (`storage.rs`)

A `Table` owns its name, an optional cipher, the in-memory `id → Record`
index and the dirty flag.  The backing file system is modelled as an
association list from table name to file bytes and is threaded
explicitly through `Table.new` (which loads an existing file) and
`Table.save` (which writes one); the canonical path derivation
(`data_dir/name.db`) reduces to keying the file map by the table name. -/

/-- The file system visible to one store: table name to file bytes. -/
abbrev FS := List (String × List Nat)

/-- Source `struct Table` of `storage.rs`. -/
structure Table where
  name : String
  crypto : Option Crypto
  records : List (String × Record)
  is_dirty : Bool

/-- A table as first constructed by `Table::new`, before any load: empty
index, clean. -/
def Table.emptyT (name : String) (crypto : Option Crypto) : Table :=
  { name := name, crypto := crypto, records := [], is_dirty := false }

/-- Source `Table::load` of `storage.rs`, acting on the file bytes already read:
an empty file leaves the index empty; otherwise the bytes are decrypted
when a cipher is configured, then deserialized into the index, and the
table is marked clean.  Any failure propagates. -/
def Table.loadBytes (t : Table) (buffer : List Nat) : Except DbError Table :=
  if buffer.isEmpty then .ok t
  else
    match (match t.crypto with
           | some c => Crypto.decrypt c buffer
           | none => .ok buffer) with
    | .error e => .error e
    | .ok data =>
        match bincodeDeser data with
        | .error e => .error e
        | .ok recs => .ok { t with records := recs, is_dirty := false }

/-- Source `Table::new` of `storage.rs`: starts empty; if the backing file
exists, loads it. -/
def Table.new (name : String) (crypto : Option Crypto) (fs : FS) :
    Except DbError Table :=
  match mapGet fs name with
  | none => .ok (Table.emptyT name crypto)
  | some bytes => Table.loadBytes (Table.emptyT name crypto) bytes

/-- Source `Table::insert` of `storage.rs`: rejects an id already present with
`DuplicateKey` (before any mutation), otherwise stores the record, marks
the table dirty and returns the id. -/
def Table.insert (t : Table) (r : Record) : Except DbError (String × Table) :=
  if (mapGet t.records r.id).isSome then .error (.duplicateKey r.id)
  else .ok (r.id, { t with records := mapInsert t.records r.id r,
                           is_dirty := true })

/-- Source `Table::find_by_id` of `storage.rs`. -/
def Table.find_by_id (t : Table) (id : String) : Option Record :=
  mapGet t.records id

/-- Source `Table::update` of `storage.rs`: `RecordNotFound` when absent,
otherwise `Record::update` in place (at the clock reading `now`) and the
table is marked dirty. -/
def Table.update (t : Table) (id : String) (now : Nat) (data : Data) :
    Except DbError Table :=
  match mapGet t.records id with
  | some r =>
      .ok { t with records := mapInsert t.records id (Record.update r now data),
                   is_dirty := true }
  | none => .error (.recordNotFound id)

/-- Source `Table::delete` of `storage.rs`: `RecordNotFound` when absent,
otherwise removes the record and marks the table dirty. -/
def Table.delete (t : Table) (id : String) : Except DbError Table :=
  match mapGet t.records id with
  | some _ =>
      .ok { t with records := mapRemove t.records id, is_dirty := true }
  | none => .error (.recordNotFound id)

/-- Source `Table::find_all` of `storage.rs`: every record, in the index's
unspecified iteration order. -/
def Table.find_all (t : Table) : List Record :=
  t.records.map Prod.snd

/-- Source `Table::find_where` of `storage.rs`: the records passing a
caller-supplied predicate, by a full linear scan. -/
def Table.find_where (t : Table) (predicate : Record → Bool) : List Record :=
  (t.records.map Prod.snd).filter predicate

/-- Source `Table::count` of `storage.rs`. -/
def Table.count (t : Table) : Nat :=
  t.records.length

/-- Source `Table::save` of `storage.rs`: a no-op when the table is clean;
otherwise serializes the whole index, encrypts the bytes when a cipher is
configured (under the explicitly passed fresh nonce), overwrites the
table's file and clears the dirty flag. -/
def Table.save (t : Table) (nonce : List Nat) (fs : FS) :
    Except DbError (Table × FS) :=
  if t.is_dirty = false then .ok (t, fs)
  else
    let data := bincodeSer t.records
    let final := match t.crypto with
      | some c => Crypto.encrypt c nonce data
      | none => data
    .ok ({ t with is_dirty := false }, mapInsert fs t.name final)

/-! ## Store (`database.rs`) -/

/-- Source `struct SimpleDB` of `database.rs`: the registry of open tables and
the shared optional cipher. -/
structure SimpleDB where
  tables : List (String × Table)
  crypto : Option Crypto

/-- Source `SimpleDB::load_existing_tables` of `database.rs`: opens a `Table`
for every `.db` file found in the data directory; the first load failure
aborts the whole scan. -/
def openTables (crypto : Option Crypto) : FS →
    Except DbError (List (String × Table))
  | [] => .ok []
  | (nm, bytes) :: rest =>
      match Table.loadBytes (Table.emptyT nm crypto) bytes with
      | .error e => .error e
      | .ok t =>
          match openTables crypto rest with
          | .error e => .error e
          | .ok ts => .ok ((nm, t) :: ts)

/-- Source `SimpleDB::new` of `database.rs`: builds the cipher from the
configured key if any, then loads every existing table; a failure aborts
the whole open. -/
def SimpleDB.new (crypto : Option Crypto) (fs : FS) :
    Except DbError SimpleDB :=
  match openTables crypto fs with
  | .error e => .error e
  | .ok ts => .ok { tables := ts, crypto := crypto }

/-- Source `SimpleDB::create_table` of `database.rs`: a no-op when the table is
already open, otherwise `Table::new` against the data directory. -/
def SimpleDB.create_table (db : SimpleDB) (fs : FS) (name : String) :
    Except DbError SimpleDB :=
  if (mapGet db.tables name).isSome then .ok db
  else
    match Table.new name db.crypto fs with
    | .error e => .error e
    | .ok t => .ok { db with tables := mapInsert db.tables name t }

/-- Source `SimpleDB::insert` of `database.rs`: auto-creates the table when
absent, builds a fresh record (with the environment-supplied UUID `id`
and clock reading `now`) and delegates to `Table::insert`. -/
def SimpleDB.insert (db : SimpleDB) (fs : FS) (table_name : String)
    (id : String) (now : Nat) (data : Data) :
    Except DbError (String × SimpleDB) :=
  match SimpleDB.create_table db fs table_name with
  | .error e => .error e
  | .ok db1 =>
      match mapGet db1.tables table_name with
      | none => .error (.tableNotFound table_name)
      | some t =>
          match Table.insert t (Record.new id now data) with
          | .error e => .error e
          | .ok (k, t') =>
              .ok (k, { db1 with tables := mapInsert db1.tables table_name t' })

/-- Source `SimpleDB::find_by_id` of `database.rs`: resolves the table
(`TableNotFound` when absent) and delegates. -/
def SimpleDB.find_by_id (db : SimpleDB) (table_name : String) (id : String) :
    Except DbError (Option Record) :=
  match mapGet db.tables table_name with
  | none => .error (.tableNotFound table_name)
  | some t => .ok (t.find_by_id id)

/-- Source `SimpleDB::count` of `database.rs`: resolves the table and delegates. -/
def SimpleDB.count (db : SimpleDB) (table_name : String) :
    Except DbError Nat :=
  match mapGet db.tables table_name with
  | none => .error (.tableNotFound table_name)
  | some t => .ok t.count

/-- The loop body of `SimpleDB::save_all`: saves every table in turn,
threading the file system; the first failure aborts the loop. -/
def saveTables (nonce : List Nat) : List (String × Table) → FS →
    Except DbError (List (String × Table) × FS)
  | [], fs => .ok ([], fs)
  | (nm, t) :: rest, fs =>
      match Table.save t nonce fs with
      | .error e => .error e
      | .ok (t', fs') =>
          match saveTables nonce rest fs' with
          | .error e => .error e
          | .ok (ts, fs'') => .ok ((nm, t') :: ts, fs'')

/-- Source `SimpleDB::save_all` of `database.rs`. -/
def SimpleDB.save_all (db : SimpleDB) (nonce : List Nat) (fs : FS) :
    Except DbError (SimpleDB × FS) :=
  match saveTables nonce db.tables fs with
  | .error e => .error e
  | .ok (ts, fs') => .ok ({ db with tables := ts }, fs')

/-! ## Auxiliary observables -/

/-- Whether a result is an `Encryption` error (the failure class produced
by `Crypto::new` and `Crypto::decrypt`). -/
def isEncryptionErr {α : Type} : Except DbError α → Bool
  | .error (.encryption _) => true
  | _ => false

/-- A sequence of `Record::update` calls, each with its clock reading and
replacement data, applied in order. -/
def applyUpdates (r : Record) (ops : List (Nat × Data)) : Record :=
  ops.foldl (fun r p => Record.update r p.1 p.2) r

/-! ## Helper lemmas -/

theorem mapGet_mapInsert_self {α : Type} (m : List (String × α)) (k : String)
    (v : α) : mapGet (mapInsert m k v) k = some v := by
  induction m with
  | nil => simp [mapGet, mapInsert]
  | cons hd tl ih =>
      by_cases h : hd.1 = k
      · simp [mapGet, mapInsert, h]
      · simpa [mapGet, mapInsert, h] using ih

theorem mapGet_eq_none_of_not_mem {α : Type} (m : List (String × α))
    (k : String) (h : k ∉ m.map Prod.fst) : mapGet m k = none := by
  induction m with
  | nil => rfl
  | cons hd tl ih =>
      simp only [List.map_cons, List.mem_cons] at h
      push_neg at h
      have hne : hd.1 ≠ k := fun he => h.1 he.symm
      simpa [mapGet, hne] using ih h.2

theorem length_mapRemove {α : Type} (m : List (String × α)) (k : String)
    (v : α) (h : mapGet m k = some v) :
    (mapRemove m k).length + 1 = m.length := by
  induction m with
  | nil => simp [mapGet] at h
  | cons hd tl ih =>
      by_cases hk : hd.1 = k
      · simp [mapRemove, hk]
      · simp only [mapGet, hk, if_false] at h
        simp [mapRemove, hk, ih h]

theorem mapGet_mapRemove_self {α : Type} (m : List (String × α)) (k : String)
    (hnd : (m.map Prod.fst).Nodup) : mapGet (mapRemove m k) k = none := by
  induction m with
  | nil => rfl
  | cons hd tl ih =>
      simp only [List.map_cons, List.nodup_cons] at hnd
      by_cases hk : hd.1 = k
      · simp only [mapRemove, hk, if_true]
        exact mapGet_eq_none_of_not_mem tl k (hk ▸ hnd.1)
      · simpa [mapRemove, mapGet, hk] using ih hnd.2

theorem encodeListNat_injective :
    ∀ l1 l2 : List Nat, encodeListNat l1 = encodeListNat l2 → l1 = l2 := by
  intro l1
  induction l1 with
  | nil =>
      intro l2 h
      cases l2 with
      | nil => rfl
      | cons y ys => simp [encodeListNat] at h
  | cons x xs ih =>
      intro l2 h
      cases l2 with
      | nil => simp [encodeListNat] at h
      | cons y ys =>
          simp only [encodeListNat, Nat.add_right_cancel_iff] at h
          obtain ⟨h1, h2⟩ := Nat.pair_eq_pair.mp h
          rw [h1, ih ys h2]

theorem tagOf_key_injective (k1 k2 nonce data : List Nat)
    (h : tagOf k1 nonce data = tagOf k2 nonce data) : k1 = k2 := by
  simp only [tagOf] at h
  exact encodeListNat_injective k1 k2 (Nat.pair_eq_pair.mp h).1

/-- The result of `Crypto.decrypt` applied to a well-formed encryption
buffer, for an arbitrary trial key: success with the plaintext when the
keys agree, an `Encryption` failure otherwise. -/
theorem decrypt_encrypt (k1 k2 nonce p : List Nat) (hnonce : nonce.length = 12) :
    Crypto.decrypt (Crypto.mk k2) (Crypto.encrypt (Crypto.mk k1) nonce p) =
      if k2 = k1 then .ok p
      else .error (.encryption "decrypt failed") := by
  have hbuf : Crypto.encrypt (Crypto.mk k1) nonce p =
      nonce ++ (p ++ [tagOf k1 nonce p]) := rfl
  have hlen : (nonce ++ (p ++ [tagOf k1 nonce p])).length = 12 + (p.length + 1) := by
    simp [hnonce]
  have htake : (nonce ++ (p ++ [tagOf k1 nonce p])).take 12 = nonce := by
    rw [← hnonce]
    exact List.take_left nonce _
  have hdrop : (nonce ++ (p ++ [tagOf k1 nonce p])).drop 12 = p ++ [tagOf k1 nonce p] := by
    rw [← hnonce]
    exact List.drop_left nonce _
  rw [hbuf, Crypto.decrypt]
  rw [if_neg (by omega)]
  simp only [htake, hdrop, List.getLast?_concat, List.dropLast_concat]
  by_cases hk : k2 = k1
  · subst hk
    simp
  · rw [if_neg hk, if_neg (fun he => hk (tagOf_key_injective k2 k1 nonce p he))]

/-! ## Claim theorems -/

/-- C1: a store-level `insert(t, d)` auto-creates table `t` if absent and
returns an id `k` such that `find_by_id(t, k)` yields a record whose data
is `d`, whose id is `k`, and whose `created_at` equals `updated_at`.  The
freshly generated UUID is assumed not to collide with a stored id, and an
absent table has no stale backing file (so auto-creation starts empty, as
in a store whose registry mirrors its directory). -/
theorem insert_then_find (db : SimpleDB) (fs : FS) (t id : String) (now : Nat)
    (d : Data)
    (hfresh : ∀ tbl, mapGet db.tables t = some tbl →
      mapGet tbl.records id = none)
    (hfile : mapGet db.tables t = none → mapGet fs t = none) :
    ∃ db', SimpleDB.insert db fs t id now d = .ok (id, db') ∧
      ∃ r, SimpleDB.find_by_id db' t id = .ok (some r) ∧
        r.data = d ∧ r.id = id ∧ r.created_at = r.updated_at := by
  cases h : mapGet db.tables t with
  | none =>
      have hf := hfile h
      have hcreate : SimpleDB.create_table db fs t =
          .ok { db with tables := mapInsert db.tables t (Table.emptyT t db.crypto) } := by
        simp [SimpleDB.create_table, h, Table.new, hf]
      refine ⟨SimpleDB.mk
          (mapInsert (mapInsert db.tables t (Table.emptyT t db.crypto)) t
            (Table.mk t db.crypto (mapInsert [] id (Record.new id now d)) true))
          db.crypto, ?_, Record.new id now d, ?_, rfl, rfl, rfl⟩
      · simp only [SimpleDB.insert, hcreate]
        rw [mapGet_mapInsert_self]
        rfl
      · simp [SimpleDB.find_by_id, Table.find_by_id, mapGet_mapInsert_self]
  | some tbl =>
      have hcreate : SimpleDB.create_table db fs t = .ok db := by
        simp [SimpleDB.create_table, h]
      have hins : Table.insert tbl (Record.new id now d) =
          .ok (id, { tbl with records := mapInsert tbl.records id (Record.new id now d),
                              is_dirty := true }) := by
        simp [Table.insert, Record.new, hfresh tbl h]
      refine ⟨SimpleDB.mk
          (mapInsert db.tables t
            (Table.mk tbl.name tbl.crypto
              (mapInsert tbl.records id (Record.new id now d)) true))
          db.crypto, ?_, Record.new id now d, ?_, rfl, rfl, rfl⟩
      · simp only [SimpleDB.insert, hcreate, h, hins]
      · simp [SimpleDB.find_by_id, Table.find_by_id, mapGet_mapInsert_self]

/-- Witness for C1 at a concrete input: the empty store, empty directory. -/
theorem insert_then_find_witness :
    ∃ db', SimpleDB.insert { tables := [], crypto := none } [] "users" "u1" 7
        [("name", Value.string "a")] = .ok ("u1", db') ∧
      ∃ r, SimpleDB.find_by_id db' "users" "u1" = .ok (some r) ∧
        r.data = [("name", Value.string "a")] ∧ r.id = "u1" ∧
        r.created_at = r.updated_at :=
  insert_then_find { tables := [], crypto := none } [] "users" "u1" 7
    [("name", Value.string "a")]
    (fun tbl htbl => by simp [mapGet] at htbl) (fun _ => rfl)

/-- C2: `update(k, newData)` on a present id replaces the whole data
mapping, leaves `id` and `created_at` unchanged, and (clock running
forward) does not decrease `updated_at`; on an absent id it fails with
`RecordNotFound`.  The untouched-on-failure half of the claim is inherent
in the functional model: the failing call returns no new table state. -/
theorem update_semantics (t : Table) (k k2 : String) (now : Nat) (d : Data)
    (r : Record) (hr : mapGet t.records k = some r)
    (hmono : r.updated_at ≤ now) (habs : mapGet t.records k2 = none) :
    ∃ t' r', Table.update t k now d = .ok t' ∧
      Table.find_by_id t' k = some r' ∧ r'.data = d ∧ r'.id = r.id ∧
      r'.created_at = r.created_at ∧ r.updated_at ≤ r'.updated_at ∧
      Table.update t k2 now d = .error (.recordNotFound k2) := by
  refine ⟨{ t with records := mapInsert t.records k (Record.update r now d),
                   is_dirty := true },
          Record.update r now d, ?_, ?_, rfl, rfl, rfl, hmono, ?_⟩
  · simp [Table.update, hr]
  · exact mapGet_mapInsert_self t.records k (Record.update r now d)
  · simp [Table.update, habs]

/-- Witness for C2 at a concrete one-record table. -/
theorem update_semantics_witness :
    ∃ t' r',
      Table.update
          (Table.mk "users" none [("a", Record.mk "a" [] 3 4)] false)
          "a" 9 [("x", Value.int 1)] = .ok t' ∧
      Table.find_by_id t' "a" = some r' ∧ r'.data = [("x", Value.int 1)] ∧
      r'.id = "a" ∧ r'.created_at = 3 ∧ (4 : Nat) ≤ r'.updated_at ∧
      Table.update
          (Table.mk "users" none [("a", Record.mk "a" [] 3 4)] false)
          "b" 9 [("x", Value.int 1)] = .error (.recordNotFound "b") :=
  update_semantics _ "a" "b" 9 [("x", Value.int 1)] (Record.mk "a" [] 3 4)
    (by simp [mapGet]) (by decide) (by simp [mapGet])

/-- C3: inserting a record whose id is already present fails with
`DuplicateKey`, and the record stored under that id is untouched (the
source returns the error before any mutation; here the failing call
returns no new table state, so the caller's table is unchanged). -/
theorem duplicate_insert_rejected (t : Table) (r r0 : Record)
    (h : mapGet t.records r.id = some r0) :
    Table.insert t r = .error (.duplicateKey r.id) ∧
    Table.find_by_id t r.id = some r0 :=
  ⟨by simp [Table.insert, h], h⟩

/-- Witness for C3 at a concrete one-record table. -/
theorem duplicate_insert_rejected_witness :
    Table.insert
        (Table.mk "users" none [("a", Record.mk "a" [] 3 4)] false)
        (Record.mk "a" [("z", Value.null)] 5 5) =
      .error (.duplicateKey "a") ∧
    Table.find_by_id
        (Table.mk "users" none [("a", Record.mk "a" [] 3 4)] false) "a" =
      some (Record.mk "a" [] 3 4) :=
  duplicate_insert_rejected _ _ _ (by simp [mapGet])

/-- C4: `delete(k)` on a present id succeeds, after which `find_by_id(k)`
is absent and `count` is exactly one less; on an absent id it fails with
`RecordNotFound` (and, the model being functional, the failing call
returns no new table state).  The `Nodup` hypothesis is the `HashMap`
key-uniqueness invariant. -/
theorem delete_semantics (t : Table) (k k2 : String) (r : Record)
    (hnd : (t.records.map Prod.fst).Nodup)
    (hr : mapGet t.records k = some r) (habs : mapGet t.records k2 = none) :
    ∃ t', Table.delete t k = .ok t' ∧ Table.find_by_id t' k = none ∧
      t'.count + 1 = t.count ∧
      Table.delete t k2 = .error (.recordNotFound k2) := by
  refine ⟨{ t with records := mapRemove t.records k, is_dirty := true },
          ?_, ?_, ?_, ?_⟩
  · simp [Table.delete, hr]
  · exact mapGet_mapRemove_self t.records k hnd
  · exact length_mapRemove t.records k r hr
  · simp [Table.delete, habs]

/-- Witness for C4 at a concrete two-record table. -/
theorem delete_semantics_witness :
    ∃ t', Table.delete
          (Table.mk "users" none
            [("a", Record.mk "a" [] 3 4), ("b", Record.mk "b" [] 5 5)] false)
          "a" = .ok t' ∧
      Table.find_by_id t' "a" = none ∧
      t'.count + 1 = Table.count
        (Table.mk "users" none
          [("a", Record.mk "a" [] 3 4), ("b", Record.mk "b" [] 5 5)] false) ∧
      Table.delete
          (Table.mk "users" none
            [("a", Record.mk "a" [] 3 4), ("b", Record.mk "b" [] 5 5)] false)
          "c" = .error (.recordNotFound "c") :=
  delete_semantics _ "a" "c" (Record.mk "a" [] 3 4) (by decide)
    (by simp [mapGet]) (by simp [mapGet])

/-- C5: for a 32-byte key and a 12-byte fresh nonce, decrypting the
encryption of any plaintext under the same key recovers the plaintext
exactly, and the encryption buffer carries the nonce in its leading 12
bytes.  The quantification over arbitrary plaintext byte sequences covers
in particular the serialization of any `Value`. -/
theorem encrypt_then_decrypt (key nonce p : List Nat)
    (hkey : key.length = 32) (hnonce : nonce.length = 12) :
    ∃ c, Crypto.new key = .ok c ∧
      (Crypto.encrypt c nonce p).take 12 = nonce ∧
      Crypto.decrypt c (Crypto.encrypt c nonce p) = .ok p := by
  refine ⟨Crypto.mk key, ?_, ?_, ?_⟩
  · simp [Crypto.new, hkey]
  · show (nonce ++ _).take 12 = nonce
    rw [← hnonce]
    exact List.take_left nonce _
  · simpa using decrypt_encrypt key key nonce p hnonce

/-- Witness for C5 at a concrete key, nonce and plaintext. -/
theorem encrypt_then_decrypt_witness :
    ∃ c, Crypto.new (List.replicate 32 0) = .ok c ∧
      (Crypto.encrypt c (List.replicate 12 1) [10, 20, 30]).take 12 =
        List.replicate 12 1 ∧
      Crypto.decrypt c (Crypto.encrypt c (List.replicate 12 1) [10, 20, 30]) =
        .ok [10, 20, 30] :=
  encrypt_then_decrypt (List.replicate 32 0) (List.replicate 12 1) [10, 20, 30]
    (by simp) (by simp)

/-- C6: a table file saved under key `k1` (nonce, then authenticated
ciphertext of the serialized index) fails to decrypt under any other
32-byte key `k2`, with an `Encryption` error — at the `Crypto.decrypt`
level, at the `Table::load` level, and at the store-open level, never a
success with corrupted plaintext; and any buffer shorter than the 12-byte
nonce is likewise rejected by `Crypto.decrypt` with an `Encryption`
error. -/
theorem wrong_key_detection (k1 k2 nonce buf : List Nat)
    (m : List (String × Record)) (name : String)
    (h1 : k1.length = 32) (h2 : k2.length = 32) (hne : k1 ≠ k2)
    (hnonce : nonce.length = 12) (hshort : buf.length < 12) :
    isEncryptionErr (Crypto.decrypt (Crypto.mk k2)
      (Crypto.encrypt (Crypto.mk k1) nonce (bincodeSer m))) = true ∧
    isEncryptionErr (Table.loadBytes (Table.emptyT name (some (Crypto.mk k2)))
      (Crypto.encrypt (Crypto.mk k1) nonce (bincodeSer m))) = true ∧
    isEncryptionErr (SimpleDB.new (some (Crypto.mk k2))
      [(name, Crypto.encrypt (Crypto.mk k1) nonce (bincodeSer m))]) = true ∧
    isEncryptionErr (Crypto.decrypt (Crypto.mk k2) buf) = true := by
  have hne' : ¬(k2 = k1) := fun he => hne he.symm
  have hdec : Crypto.decrypt (Crypto.mk k2)
      (Crypto.encrypt (Crypto.mk k1) nonce (bincodeSer m)) =
      .error (.encryption "decrypt failed") := by
    rw [decrypt_encrypt k1 k2 nonce (bincodeSer m) hnonce, if_neg hne']
  have hnonempty : (Crypto.encrypt (Crypto.mk k1) nonce (bincodeSer m)).isEmpty
      = false := by
    apply List.isEmpty_eq_false.mpr
    intro hcon
    have : (Crypto.encrypt (Crypto.mk k1) nonce (bincodeSer m)).length = 0 := by
      rw [hcon]; rfl
    simp [Crypto.encrypt, hnonce] at this
  have hload : Table.loadBytes (Table.emptyT name (some (Crypto.mk k2)))
      (Crypto.encrypt (Crypto.mk k1) nonce (bincodeSer m)) =
      .error (.encryption "decrypt failed") := by
    simp only [Table.loadBytes, hnonempty, Bool.false_eq_true, if_false,
      Table.emptyT, hdec]
  have hopen : SimpleDB.new (some (Crypto.mk k2))
      [(name, Crypto.encrypt (Crypto.mk k1) nonce (bincodeSer m))] =
      .error (.encryption "decrypt failed") := by
    simp only [SimpleDB.new, openTables, hload]
  have hbufdec : Crypto.decrypt (Crypto.mk k2) buf =
      .error (.encryption "encrypted data too short, need at least 12 bytes") := by
    simp [Crypto.decrypt, hshort]
  rw [hdec, hload, hopen, hbufdec]
  exact ⟨rfl, rfl, rfl, rfl⟩

/-- Witness for C6 at concrete distinct 32-byte keys and a short buffer. -/
theorem wrong_key_detection_witness :
    isEncryptionErr (Crypto.decrypt (Crypto.mk (List.replicate 31 0 ++ [1]))
      (Crypto.encrypt (Crypto.mk (List.replicate 32 0)) (List.replicate 12 2)
        (bincodeSer []))) = true ∧
    isEncryptionErr (Table.loadBytes
      (Table.emptyT "users" (some (Crypto.mk (List.replicate 31 0 ++ [1]))))
      (Crypto.encrypt (Crypto.mk (List.replicate 32 0)) (List.replicate 12 2)
        (bincodeSer []))) = true ∧
    isEncryptionErr (SimpleDB.new (some (Crypto.mk (List.replicate 31 0 ++ [1])))
      [("users", Crypto.encrypt (Crypto.mk (List.replicate 32 0))
        (List.replicate 12 2) (bincodeSer []))]) = true ∧
    isEncryptionErr (Crypto.decrypt (Crypto.mk (List.replicate 31 0 ++ [1]))
      [9, 9, 9]) = true :=
  wrong_key_detection (List.replicate 32 0) (List.replicate 31 0 ++ [1])
    (List.replicate 12 2) [9, 9, 9] [] "users"
    (by simp) (by simp) (by decide) (by simp) (by decide)

/-- C7 (counterexample): starting from an empty data directory, creating
table `users` and then saving writes no file at all — `save` is a no-op
because a freshly created table is not dirty — so reopening the store
from the same directory finds no table, and `count` fails with
`TableNotFound` instead of returning 0.  This falsifies the claim that
the scenario "produces a file that, when the store is reopened, yields
count == 0". -/
theorem create_save_produces_no_file_cex :
    SimpleDB.create_table (SimpleDB.mk [] none) [] "users" =
      .ok (SimpleDB.mk [("users", Table.emptyT "users" none)] none) ∧
    SimpleDB.save_all (SimpleDB.mk [("users", Table.emptyT "users" none)] none)
        (List.replicate 12 0) [] =
      .ok (SimpleDB.mk [("users", Table.emptyT "users" none)] none, []) ∧
    SimpleDB.new none [] = .ok (SimpleDB.mk [] none) ∧
    SimpleDB.count (SimpleDB.mk [] none) "users" =
      .error (.tableNotFound "users") ∧
    SimpleDB.count (SimpleDB.mk [] none) "users" ≠ .ok 0 := by
  refine ⟨rfl, rfl, rfl, rfl, ?_⟩
  intro hcon
  exact Except.noConfusion hcon

/-- C7 (amended): creating a table in a store opened on an empty
directory and then saving leaves the directory empty (no file is
produced, the clean table's save being a no-op), and a store reopened
from that directory does not contain the table: `count` fails with
`TableNotFound`. -/
theorem create_save_reopen_amended (name : String) (nonce : List Nat) :
    SimpleDB.create_table (SimpleDB.mk [] none) [] name =
      .ok (SimpleDB.mk [(name, Table.emptyT name none)] none) ∧
    SimpleDB.save_all (SimpleDB.mk [(name, Table.emptyT name none)] none)
        nonce [] =
      .ok (SimpleDB.mk [(name, Table.emptyT name none)] none, []) ∧
    SimpleDB.new none [] = .ok (SimpleDB.mk [] none) ∧
    SimpleDB.count (SimpleDB.mk [] none) name = .error (.tableNotFound name) :=
  ⟨rfl, rfl, rfl, rfl⟩

/-- C8: a backing file that exists but is empty (zero bytes) opens as a
valid empty table — `count = 0` — whether or not a cipher is configured,
and never as a decryption or deserialization failure. -/
theorem empty_file_is_empty_table (name : String) (crypto : Option Crypto)
    (fs : FS) (h : mapGet fs name = some []) :
    Table.new name crypto fs = .ok (Table.emptyT name crypto) ∧
    (Table.emptyT name crypto).count = 0 := by
  constructor
  · simp [Table.new, h, Table.loadBytes]
  · rfl

/-- Witness for C8: an empty file, opened both without a key and with
one. -/
theorem empty_file_is_empty_table_witness :
    (Table.new "t" none [("t", [])] = .ok (Table.emptyT "t" none) ∧
      (Table.emptyT "t" none).count = 0) ∧
    (Table.new "t" (some (Crypto.mk (List.replicate 32 0))) [("t", [])] =
        .ok (Table.emptyT "t" (some (Crypto.mk (List.replicate 32 0)))) ∧
      (Table.emptyT "t" (some (Crypto.mk (List.replicate 32 0)))).count = 0) :=
  ⟨empty_file_is_empty_table "t" none [("t", [])] (by simp [mapGet]),
   empty_file_is_empty_table "t" (some (Crypto.mk (List.replicate 32 0)))
     [("t", [])] (by simp [mapGet])⟩

/-- The fields of a record after a sequence of updates: the id and
creation time are those of the starting record, and the final update time
is either the starting one or the clock reading of one of the updates. -/
theorem applyUpdates_fields (ops : List (Nat × Data)) :
    ∀ r : Record, (applyUpdates r ops).id = r.id ∧
      (applyUpdates r ops).created_at = r.created_at ∧
      ((applyUpdates r ops).updated_at = r.updated_at ∨
        (applyUpdates r ops).updated_at ∈ ops.map Prod.fst) := by
  induction ops with
  | nil => intro r; simp [applyUpdates]
  | cons hd tl ih =>
      intro r
      have e : applyUpdates r (hd :: tl) =
          applyUpdates (Record.update r hd.1 hd.2) tl := rfl
      have h := ih (Record.update r hd.1 hd.2)
      rw [e]
      refine ⟨h.1, h.2.1, ?_⟩
      rcases h.2.2 with h3 | h3
      · right
        rw [h3]
        exact List.mem_cons_self _ _
      · right
        exact List.mem_cons_of_mem _ h3

/-- C9: a record created by `Record::new` starts with
`created_at = updated_at`; under any sequence of updates whose clock
readings are not earlier than the creation time (a monotone clock), the
id and `created_at` never change and `created_at ≤ updated_at` holds
throughout. -/
theorem record_timestamps_invariant (id : String) (t0 : Nat) (d : Data)
    (ops : List (Nat × Data)) (hmono : ∀ p ∈ ops, t0 ≤ p.1) :
    (Record.new id t0 d).created_at = (Record.new id t0 d).updated_at ∧
    (applyUpdates (Record.new id t0 d) ops).id = id ∧
    (applyUpdates (Record.new id t0 d) ops).created_at = t0 ∧
    (applyUpdates (Record.new id t0 d) ops).created_at ≤
      (applyUpdates (Record.new id t0 d) ops).updated_at := by
  have h := applyUpdates_fields ops (Record.new id t0 d)
  refine ⟨rfl, h.1, h.2.1, ?_⟩
  rw [h.2.1]
  rcases h.2.2 with h3 | h3
  · rw [h3]
    exact le_rfl
  · obtain ⟨p, hp, hpe⟩ := List.mem_map.mp h3
    exact hpe ▸ hmono p hp

/-- Witness for C9 at a concrete record and update sequence. -/
theorem record_timestamps_invariant_witness :
    (Record.new "u" 2 []).created_at = (Record.new "u" 2 []).updated_at ∧
    (applyUpdates (Record.new "u" 2 []) [(5, []), (9, [("x", Value.null)])]).id
      = "u" ∧
    (applyUpdates (Record.new "u" 2 [])
      [(5, []), (9, [("x", Value.null)])]).created_at = 2 ∧
    (applyUpdates (Record.new "u" 2 [])
        [(5, []), (9, [("x", Value.null)])]).created_at ≤
      (applyUpdates (Record.new "u" 2 [])
        [(5, []), (9, [("x", Value.null)])]).updated_at :=
  record_timestamps_invariant "u" 2 [] [(5, []), (9, [("x", Value.null)])]
    (by decide)

/-- C10: `find_where(p)` returns exactly the records of `find_all`
satisfying `p` — equal as multisets, and with the same membership — and
with the always-true predicate it returns exactly `find_all`. -/
theorem find_where_matches_find_all (t : Table) (p : Record → Bool) :
    (↑(Table.find_where t p) : Multiset Record) =
      ↑((Table.find_all t).filter p) ∧
    (∀ r : Record, r ∈ Table.find_where t p ↔
      r ∈ Table.find_all t ∧ p r = true) ∧
    (↑(Table.find_where t (fun _ => true)) : Multiset Record) =
      ↑(Table.find_all t) := by
  refine ⟨rfl, ?_, ?_⟩
  · intro r
    simp [Table.find_where, Table.find_all, List.mem_filter]
  · simp [Table.find_where, Table.find_all, List.filter_true]
